import Mathlib

/-
Verification development for the namebase/hsd wallet transaction engine.

Each definition below is a shallow embedding of a function of the source
tree (src/lib/utils/util.js, src/lib/wallet/http.js,
src/lib/wallet/cachedtxdb.js, src/lib/wallet/plugin.js and the unnamed
handler file).  JavaScript Maps are embedded as association lists in
insertion order, machine integers as Nat with explicit modular reduction
where JavaScript coerces, fallible code as Except, and mutation as
explicit state passing.  External collaborators (hash functions, the
chain, the key ring, the persistent store) are parameters.
-/

set_option maxHeartbeats 1000000

namespace Util

/- Embedding of src/lib/utils/util.js createBatch / createStrictBatch.
   A result entry pairs a domain name with the number of outputs taken
   from it (the JS objects are of shape name/bidCount). -/

/-- One entry of validDomains or rejectedDomains. -/
structure DomainCount where
  name : String
  bidCount : Nat
deriving DecidableEq, Repr

/-- Embedding of the line
      entriesArray.sort((elem1, elem2) => elem1[1].length > elem2[1].length);
    The comparator returns a Boolean.  Array.prototype.sort applies
    ToNumber to the comparator result, so it only ever sees 0 (false) or
    1 (true), never a negative number.  V8's TimSort detects runs with
    comparator-result < 0 tests and its binary insertion step moves an
    element only when a comparison is negative, so with this comparator
    the array is never reordered: the entries stay in Map insertion
    order.  (Even a consistent reading of this comparator would sort
    ascending, never descending.)  Hence the embedding is the identity. -/
def sortJsByLengthBool (entries : List (String × List α)) : List (String × List α) :=
  entries

/-- Loop of createBatch (util.js lines 215-233), recursing over the
    entries with the running totalNumberOfOutputs accumulator.  When a
    domain does not fit and free slots remain, a partial share of the
    domain (availableSpots = limit - total) is accepted and the
    remainder rejected; if no slots remain the domain is rejected
    whole. -/
def createBatchRun (limit : Nat) : Nat → List (String × List α) → List DomainCount × List DomainCount
  | _, [] => ([], [])
  | total, (name, outputs) :: rest =>
    if total + outputs.length > limit then
      if 0 < limit - total then
        (⟨name, limit - total⟩ :: (createBatchRun limit limit rest).1,
         ⟨name, outputs.length - (limit - total)⟩ :: (createBatchRun limit limit rest).2)
      else
        ((createBatchRun limit total rest).1,
         ⟨name, outputs.length⟩ :: (createBatchRun limit total rest).2)
    else
      (⟨name, outputs.length⟩ :: (createBatchRun limit (total + outputs.length) rest).1,
       (createBatchRun limit (total + outputs.length) rest).2)

/-- util.createBatch after its argument guards: sort (a no-op, see
    sortJsByLengthBool) then the packing loop starting from total 0. -/
def createBatch (limit : Nat) (entries : List (String × List α)) : List DomainCount × List DomainCount :=
  createBatchRun limit 0 (sortJsByLengthBool entries)

/-- Loop of createStrictBatch (util.js lines 264-272): a domain is
    accepted only when all of its outputs fit, otherwise it is rejected
    whole; no partial share is ever taken. -/
def createStrictBatchRun (limit : Nat) : Nat → List (String × List α) → List DomainCount × List DomainCount
  | _, [] => ([], [])
  | total, (name, outputs) :: rest =>
    if total + outputs.length > limit then
      ((createStrictBatchRun limit total rest).1,
       ⟨name, outputs.length⟩ :: (createStrictBatchRun limit total rest).2)
    else
      (⟨name, outputs.length⟩ :: (createStrictBatchRun limit (total + outputs.length) rest).1,
       (createStrictBatchRun limit (total + outputs.length) rest).2)

/-- util.createStrictBatch after its argument guards. -/
def createStrictBatch (limit : Nat) (entries : List (String × List α)) : List DomainCount × List DomainCount :=
  createStrictBatchRun limit 0 (sortJsByLengthBool entries)

/-- Embedding of util.createBatch including its argument guards
    (util.js lines 201-206).  The map argument is none when the JS value
    is null or undefined; the limit guard (not limit, or limit === 0)
    fires exactly when the number is 0 (falsy).  The second half of the
    map guard, domainOutputMap.entries().length === 0, compares
    undefined with 0 -- Map.prototype.entries returns an iterator, which
    has no length property -- so it is always false and an empty Map
    passes the guard; the embedding therefore drops it. -/
def createBatchChecked (limit : Nat) (domainOutputMap : Option (List (String × List α))) : Except String (List DomainCount × List DomainCount) :=
  if limit = 0 then
    .error "invalid limit provided"
  else
    match domainOutputMap with
    | none => .error "Invalid map provided"
    | some entries => .ok (createBatch limit entries)

/-- Embedding of util.createStrictBatch including its argument guards
    (util.js lines 250-255); the guards are identical to createBatch's,
    including the vacuous entries().length === 0 comparison. -/
def createStrictBatchChecked (limit : Nat) (domainOutputMap : Option (List (String × List α))) : Except String (List DomainCount × List DomainCount) :=
  if limit = 0 then
    .error "invalid limit provided"
  else
    match domainOutputMap with
    | none => .error "Invalid map provided"
    | some entries => .ok (createStrictBatch limit entries)

/-- Sum of the bidCount fields of a packing result side. -/
def sumCounts (l : List DomainCount) : Nat :=
  (l.map DomainCount.bidCount).sum

/-- Insertion step for the descending sort the specification describes
    (largest per-domain output count first).  Used only to state the
    claimed behavior of createBatch; written from the spec words, not
    the source. -/
def insertDescByLen (p : String × List α) : List (String × List α) → List (String × List α)
  | [] => [p]
  | q :: rest =>
    if q.2.length < p.2.length then
      p :: q :: rest
    else
      q :: insertDescByLen p rest

/-- Descending (largest-count-first) stable sort of the entries, written
    from the spec words for comparison with the source behavior. -/
def sortDescByLen (entries : List (String × List α)) : List (String × List α) :=
  entries.foldr insertDescByLen []

/-- The behavior claimed for createBatch: domains sorted by per-domain
    output count, largest first, then budget filled in that order with a
    partial share when a domain does not fit.  Written from the spec
    words; compared against the source embedding createBatch. -/
def createBatchSpecSortedDesc (limit : Nat) (entries : List (String × List α)) : List DomainCount × List DomainCount :=
  createBatchRun limit 0 (sortDescByLen entries)

/-- Budget-filling in the given entry order, the amended description of
    createBatch: process entries in Map insertion order with a remaining
    budget; a domain that fits is taken whole, a domain that does not
    fit while slots remain contributes exactly the remaining slots and
    its leftover count is rejected, and later domains are rejected
    whole. -/
def fillBudgetInOrder : Nat → List (String × List α) → List DomainCount × List DomainCount
  | _, [] => ([], [])
  | budget, (name, outputs) :: rest =>
    if outputs.length ≤ budget then
      (⟨name, outputs.length⟩ :: (fillBudgetInOrder (budget - outputs.length) rest).1,
       (fillBudgetInOrder (budget - outputs.length) rest).2)
    else if 0 < budget then
      (⟨name, budget⟩ :: (fillBudgetInOrder 0 rest).1,
       ⟨name, outputs.length - budget⟩ :: (fillBudgetInOrder 0 rest).2)
    else
      ((fillBudgetInOrder 0 rest).1,
       ⟨name, outputs.length⟩ :: (fillBudgetInOrder 0 rest).2)

/-- Lookup in an insertion-ordered association list, mirroring
    Map.prototype.get. -/
def mapGet : List (String × List α) → String → Option (List α)
  | [], _ => none
  | (k, v) :: rest, name => if k = name then some v else mapGet rest name

end Util

namespace WalletHttp

/-- Fixed output budget for a batch reveal transaction
    (src/lib/wallet/http.js line 2186). -/
def MAX_REVEALS_PER_BATCH_TX : Nat := 200

/-- Embedding of the output-collection loop of makeBatchReveal
    (src/lib/wallet/http.js lines 4538-4548): run createStrictBatch with
    budget 200 over the name-to-reveal-outputs map, then for each
    accepted domain append outputMap.get(name).slice(0, bidCount) to the
    transaction outputs. -/
def makeBatchRevealOutputs (entries : List (String × List α)) : List α :=
  (Util.createStrictBatch MAX_REVEALS_PER_BATCH_TX entries).1.foldl
    (fun acc vd => acc ++ ((Util.mapGet entries vd.name).getD []).take vd.bidCount) []

/-- Embedding of the rejected-domain error loop of makeBatchReveal
    (src/lib/wallet/http.js lines 4549-4553): each rejected domain is
    surfaced as a per-name error entry. -/
def makeBatchRevealRejectedErrors (entries : List (String × List α)) : List String :=
  (Util.createStrictBatch MAX_REVEALS_PER_BATCH_TX entries).2.map Util.DomainCount.name

end WalletHttp

/- Shared primitives for the wallet embeddings. -/

/-- A transaction outpoint (hash, index). -/
structure Outpoint where
  hash : String
  index : Nat
deriving DecidableEq, Repr

/-- Covenant types from covenants/rules, restricted to the ones the
    embedded functions construct or test. -/
inductive CovType where
  | NONE
  | CLAIM
  | OPEN
  | BID
  | REVEAL
  | REDEEM
  | REGISTER
  | UPDATE
  | RENEW
  | TRANSFER
  | FINALIZE
  | REVOKE
deriving DecidableEq, Repr

/-- One covenant item, tagged by how the source pushes it (pushHash,
    pushU32, push of raw bytes). -/
inductive CovItem where
  | hashItem (h : String)
  | u32Item (n : Nat)
  | rawItem (b : List Nat)
deriving DecidableEq, Repr

/-- A transaction output as the builders construct it. -/
structure OutputM where
  address : String
  value : Nat
  covType : CovType
  covItems : List CovItem
deriving DecidableEq, Repr

/-- The coin data the builders read: value, confirmation height,
    address. -/
structure Coin where
  value : Nat
  height : Nat
  address : String
deriving DecidableEq, Repr

/-- A mutable transaction: pre-added input outpoints and outputs. -/
structure MtxM where
  inputs : List Outpoint
  outputs : List OutputM
deriving DecidableEq, Repr

namespace JsMap

/- Association lists in insertion order embedding JavaScript Map: get
   returns the value for a key, set replaces in place or appends, delete
   removes the entry. -/

/-- Map.prototype.get. -/
def getA [DecidableEq κ] : List (κ × ν) → κ → Option ν
  | [], _ => none
  | (k', v) :: rest, k => if k' = k then some v else getA rest k

/-- Map.prototype.set: replace the existing entry in place, else append
    at the end. -/
def setA [DecidableEq κ] : List (κ × ν) → κ → ν → List (κ × ν)
  | [], k, v => [(k, v)]
  | (k', v') :: rest, k, v =>
    if k' = k then (k, v) :: rest else (k', v') :: setA rest k v

/-- Map.prototype.delete. -/
def delA [DecidableEq κ] : List (κ × ν) → κ → List (κ × ν)
  | [], _ => []
  | (k', v') :: rest, k => if k' = k then rest else (k', v') :: delA rest k

/-- The getOrCreate / ensureMap helper of cachedtxdb.js (lines 31-50):
    return the value stored under the key, or install the given fresh
    value and return it.  The result pairs the inner value with the
    updated parent map. -/
def ensureA [DecidableEq κ] (parent : List (κ × ν)) (k : κ) (fresh : ν) : ν × List (κ × ν) :=
  match getA parent k with
  | some v => (v, parent)
  | none => (fresh, setA parent k fresh)

/-- Set.prototype.add on a JavaScript Set of numbers. -/
def addS (s : List Nat) (i : Nat) : List Nat :=
  if i ∈ s then s else s ++ [i]

/-- Set.prototype.delete. -/
def delS (s : List Nat) (i : Nat) : List Nat :=
  s.filter (fun j => decide (j ≠ i))

/-- Set.prototype.has. -/
def memS (s : List Nat) (i : Nat) : Bool :=
  decide (i ∈ s)

end JsMap

namespace WalletHttp

/- Embedding of processNameForFinish (src/lib/wallet/http.js lines
   4894-4960).  The chain and TXDB collaborators appear as environment
   fields: the per-call constants are the checks the function performs
   before its loop, and the lookups are functions of the outpoint. -/

/-- Environment of one processNameForFinish call. -/
structure FinishEnv where
  nameValid : Bool
  nsFound : Bool
  nsExpired : Bool
  nsClosed : Bool
  nsOwner : Outpoint
  nsValue : Nat
  nsHeight : Nat
  nameHash : String
  reveals : List (Outpoint × Bool)
  getUnspentCoin : Outpoint → Option Coin
  acctOwns : Outpoint → Bool
  resourceRaw : List Nat
  maxResourceSize : Nat
  renewalBlock : String

/-- One iteration of the reveal loop of processNameForFinish (http.js
    lines 4918-4954).  Returns none for a skipped reveal (continue), an
    error for a thrown exception, and otherwise the constructed output
    paired with the spent outpoint.  A non-owner reveal becomes a REDEEM
    of the coin's value; the reveal equal to ns.owner becomes a REGISTER
    whose value is ns.value (the second-highest bid), carrying the
    encoded resource and the renewal block hash. -/
def processRevealForFinish (env : FinishEnv) (prevout : Outpoint) (own : Bool) :
    Except String (Option (OutputM × Outpoint)) :=
  if !own then .ok none
  else
    match env.getUnspentCoin prevout with
    | none => .ok none
    | some coin =>
      if !env.acctOwns prevout then .ok none
      else if coin.height < env.nsHeight then .ok none
      else if prevout = env.nsOwner then
        if env.resourceRaw.length > env.maxResourceSize then
          .error "Resource exceeds maximum size"
        else
          .ok (some ({ address := coin.address, value := env.nsValue,
                       covType := .REGISTER,
                       covItems := [.hashItem env.nameHash, .u32Item env.nsHeight,
                                    .rawItem env.resourceRaw,
                                    .hashItem env.renewalBlock] }, prevout))
      else
        .ok (some ({ address := coin.address, value := coin.value,
                     covType := .REDEEM,
                     covItems := [.hashItem env.nameHash,
                                  .u32Item env.nsHeight] }, prevout))

/-- The reveal loop of processNameForFinish, in iteration order. -/
def processFinishLoop (env : FinishEnv) : List (Outpoint × Bool) → Except String (List (OutputM × Outpoint))
  | [] => .ok []
  | (prevout, own) :: rest =>
    match processRevealForFinish env prevout own with
    | .error e => .error e
    | .ok none => processFinishLoop env rest
    | .ok (some o) =>
      match processFinishLoop env rest with
      | .error e => .error e
      | .ok os => .ok (o :: os)

/-- processNameForFinish: the preliminary name and auction-state checks
    followed by the reveal loop; an empty result throws. -/
def processNameForFinish (env : FinishEnv) : Except String (List (OutputM × Outpoint)) :=
  if !env.nameValid then .error "Invalid name"
  else if !env.nsFound then .error "Auction not found"
  else if env.nsExpired then .error "Name has expired"
  else if !env.nsClosed then .error "Auction is not yet closed"
  else
    match processFinishLoop env env.reveals with
    | .error e => .error e
    | .ok [] => .error "No reveals to redeem or register"
    | .ok outs => .ok outs

/- Embedding of the private _makeRegister (src/lib/wallet/http.js lines
   5286-5359). -/

/-- Environment of one _makeRegister call. -/
structure RegisterEnv where
  nameValid : Bool
  nsFound : Bool
  nsOwner : Outpoint
  nsValue : Nat
  nsHeight : Nat
  nameHash : String
  credit : Option (Coin × Bool)
  nsExpired : Bool
  coinCovIsReveal : Bool
  coinCovIsClaim : Bool
  height : Nat
  coinbaseMaturity : Nat
  nsClosed : Bool
  resource : Option (List Nat)
  maxResourceSize : Nat
  renewalBlock : String

/-- _makeRegister: validate ownership and auction state, then emit a
    single-input (ns.owner), single-output transaction whose REGISTER
    output carries value ns.value. -/
def makeRegister (env : RegisterEnv) : Except String MtxM :=
  if !env.nameValid then .error "Invalid name"
  else if !env.nsFound then .error "Auction not found"
  else
    match env.credit with
    | none => .error "Wallet did not win the auction"
    | some (coin, spent) =>
      if spent then .error "Credit is already pending"
      else if env.nsExpired then .error "Name has expired"
      else if coin.height < env.nsHeight then .error "Wallet did not win the auction"
      else if !env.coinCovIsReveal && !env.coinCovIsClaim then
        .error "Name must be in REVEAL or CLAIM state"
      else if env.coinCovIsClaim && decide (env.height < coin.height + env.coinbaseMaturity) then
        .error "Claim is not yet mature"
      else if !env.nsClosed then .error "Auction is not yet closed"
      else
        match env.resource with
        | some raw =>
          if raw.length > env.maxResourceSize then
            .error "Resource exceeds maximum size"
          else
            .ok { inputs := [env.nsOwner],
                  outputs := [{ address := coin.address, value := env.nsValue,
                                covType := .REGISTER,
                                covItems := [.hashItem env.nameHash,
                                             .u32Item env.nsHeight,
                                             .rawItem raw,
                                             .hashItem env.renewalBlock] }] }
        | none =>
          .ok { inputs := [env.nsOwner],
                outputs := [{ address := coin.address, value := env.nsValue,
                              covType := .REGISTER,
                              covItems := [.hashItem env.nameHash,
                                           .u32Item env.nsHeight,
                                           .rawItem [],
                                           .hashItem env.renewalBlock] }] }

/- Embedding of generateNonce / generateBlind (src/lib/wallet/http.js
   lines 3447-3482).  Byte strings are lists of naturals; the blake2b
   hash, the account public-key derivation and rules.blind are abstract
   parameters (bcrypto and covenants/rules are outside src). -/

/-- Byte strings. -/
abbrev Bytes := List Nat

/-- High 32-bit word as the source computes it:
      const hi = (value * (1 / 0x100000000)) >>> 0;
    For a safe integer value (processBid asserts
    Number.isSafeInteger(value), so value < 2^53), the double product
    value * 2^-32 is exact (multiplication by a power of two shifts the
    exponent only), and ToUint32 truncates toward zero then reduces
    modulo 2^32; on naturals that is division by 2^32 followed by
    mod 2^32. -/
def jsHiWord (value : Nat) : Nat :=
  (value / 4294967296) % 4294967296

/-- Low 32-bit word: const lo = value >>> 0. -/
def jsLoWord (value : Nat) : Nat :=
  value % 4294967296

/-- const index = (hi ^ lo) & 0x7fffffff. -/
def nonceIndex (value : Nat) : Nat :=
  (jsHiWord value ^^^ jsLoWord value) &&& 0x7fffffff

/-- generateNonce: derive the account public key at nonceIndex and hash
    blake2b.multi(address.hash, publicKey, nameHash). -/
def generateNonce (blake2bMulti : Bytes → Bytes → Bytes → Bytes)
    (accountPubkey : Nat → Bytes) (nameHash : Bytes) (addrHash : Bytes)
    (value : Nat) : Bytes :=
  blake2bMulti addrHash (accountPubkey (nonceIndex value)) nameHash

/-- generateBlind: compute the nonce, form blind = rules.blind(value,
    nonce), and persist the BlindStore record blind -> (value, nonce).
    The result pairs the returned blind with the saved record. -/
def generateBlind (blake2bMulti : Bytes → Bytes → Bytes → Bytes)
    (accountPubkey : Nat → Bytes) (rulesBlind : Nat → Bytes → Bytes)
    (nameHash : Bytes) (addrHash : Bytes) (value : Nat) :
    Bytes × (Nat × Bytes) :=
  (rulesBlind value (generateNonce blake2bMulti accountPubkey nameHash addrHash value),
   (value, generateNonce blake2bMulti accountPubkey nameHash addrHash value))

/-- Modelled from the spec: the index formula of the blind-commitment
    section, idx = (value_hi xor value_lo) & 0x7fffffff, with value_hi
    and value_lo the high and low 32-bit words of the 64-bit bid value.
    Stated from the spec words for comparison with nonceIndex. -/
def specNonceIndex (value : Nat) : Nat :=
  ((value / 2 ^ 32) ^^^ (value % 2 ^ 32)) &&& 0x7fffffff

/- Embedding of makeBatchOpen (src/lib/wallet/http.js lines 3793-3885).
   The rules predicates, the chain state and the TXDB double-open check
   are environment fields keyed by the name hash. -/

/-- Auction states as namestate.js exposes them. -/
inductive NameStateK where
  | OPENING
  | BIDDING
  | REVEAL
  | CLOSED
  | REVOKED
deriving DecidableEq, Repr

/-- Environment of one makeBatchOpen call: height is wdb.height + 1,
    nsState and nsHeight describe the name state after maybeExpire (the
    getNameStatus fallback guarantees a state object always exists). -/
structure OpenEnv where
  verifyName : String → Bool
  hashName : String → String
  rawName : String → List Nat
  height : Nat
  icannlockup : Bool
  isReserved : String → Bool
  isLockedUp : String → Bool
  hasRollout : String → Bool
  nsState : String → NameStateK
  nsHeight : String → Nat
  isCovenantDoubleOpen : String → Bool
  receiveAddress : String

/-- One iteration of the makeBatchOpen loop: every continue branch
    becomes an error recording the per-name message, and a name passing
    all conditions contributes a single OPEN output with items
    (name_hash, 0, raw_name), value 0, paid to the receive address. -/
def processBatchOpenName (env : OpenEnv) (name : String) : Except String OutputM :=
  if !env.verifyName name then .error "Invalid name"
  else if env.isReserved (env.hashName name) then .error "Name is reserved"
  else if env.icannlockup && env.isLockedUp (env.hashName name) then .error "Name is locked up"
  else if !env.hasRollout (env.hashName name) then .error "Name not yet available"
  else if env.nsState (env.hashName name) ≠ NameStateK.OPENING then .error "Name is not available"
  else if env.nsHeight (env.hashName name) ≠ 0 ∧ env.nsHeight (env.hashName name) ≠ env.height then
    .error "Name is already opening"
  else if env.isCovenantDoubleOpen (env.hashName name) then .error "Already sent an open"
  else
    .ok { address := env.receiveAddress, value := 0, covType := .OPEN,
          covItems := [.hashItem (env.hashName name), .u32Item 0,
                       .rawItem (env.rawName name)] }

/-- The makeBatchOpen loop: outputs of accepted names in order, names of
    rejected ones in order (the source stores name/error records). -/
def makeBatchOpen (env : OpenEnv) : List String → List OutputM × List String
  | [] => ([], [])
  | name :: rest =>
    match processBatchOpenName env name with
    | .error _ => ((makeBatchOpen env rest).1, name :: (makeBatchOpen env rest).2)
    | .ok out => (out :: (makeBatchOpen env rest).1, (makeBatchOpen env rest).2)

/-- The legality condition of OPEN(name) as a Boolean, written from the
    guard sequence of the source loop. -/
def openLegal (env : OpenEnv) (name : String) : Bool :=
  env.verifyName name &&
  !env.isReserved (env.hashName name) &&
  !(env.icannlockup && env.isLockedUp (env.hashName name)) &&
  env.hasRollout (env.hashName name) &&
  decide (env.nsState (env.hashName name) = NameStateK.OPENING) &&
  (decide (env.nsHeight (env.hashName name) = 0) || decide (env.nsHeight (env.hashName name) = env.height)) &&
  !env.isCovenantDoubleOpen (env.hashName name)

end WalletHttp

namespace WalletFund

/- Model for the fund-lock serialization claim.  fund (http.js lines
   3375-3384) takes fundLock and writeLock, then fill (lines 3394-3435)
   gathers the wallet's coins, drops locked ones and hands them to the
   selector.  The TXDB parts are outside src and are modelled from the
   spec: a credit carries a spent flag meaning committed to a pending
   transaction not yet confirmed, which the engine must not reuse, and
   broadcasting under the lock (sendMTX then wdb.addTX) marks the chosen
   inputs spent before the lock is released. -/

/-- A credit: its outpoint and the pending-spent flag. -/
structure WCredit where
  op : Outpoint
  spent : Bool
deriving DecidableEq, Repr

/-- Wallet coin state: credits plus the advisory locked-coin set. -/
structure WalletSt where
  credits : List WCredit
  lockedCoins : List Outpoint
deriving DecidableEq, Repr

/-- Modelled from the spec: getCoins returns the coins of credits not
    marked spent (TXDB is outside src; spec section 3, Credit). -/
def getCoins (st : WalletSt) : List Outpoint :=
  (st.credits.filter (fun c => !c.spent)).map WCredit.op

/-- Modelled from the spec: txdb.filterLocked as called by fill (http.js
    line 3415) drops outpoints in the LockManager's locked-coin set. -/
def filterLocked (st : WalletSt) (coins : List Outpoint) : List Outpoint :=
  coins.filter (fun o => decide (o ∉ st.lockedCoins))

/-- The coin supply fill offers to the selector (http.js lines
    3408-3417): available credits minus locked coins. -/
def fillCoins (st : WalletSt) : List Outpoint :=
  filterLocked st (getCoins st)

/-- Modelled from the spec: wdb.addTX marks the inputs of a broadcast
    transaction as pending-spent before the fund lock is released. -/
def markSpent (st : WalletSt) (ins : List Outpoint) : WalletSt :=
  { st with credits := st.credits.map (fun c => if c.op ∈ ins then { c with spent := true } else c) }

/-- One producer running under the fund lock: coin selection (an
    arbitrary selector choosing among the coins fill offers, modelling
    MTX.fund) followed by the broadcast bookkeeping. -/
def produceTx (choose : List Outpoint → List Outpoint) (st : WalletSt) : List Outpoint × WalletSt :=
  (choose (fillCoins st), markSpent st (choose (fillCoins st)))

/-- Serialized execution of producers: fund takes this.fundLock.lock()
    (http.js lines 3375-3384), so producers of one wallet never
    interleave and their effects compose sequentially. -/
def runProducers : List (List Outpoint → List Outpoint) → WalletSt → List (List Outpoint)
  | [], _ => []
  | c :: cs, st => (produceTx c st).1 :: runProducers cs (produceTx c st).2

/-- A selector only picks coins among those it is offered (MTX.fund's
    contract, modelled from the spec's Funder section). -/
def Subselector (c : List Outpoint → List Outpoint) : Prop :=
  ∀ l x, x ∈ c l → x ∈ l

end WalletFund

namespace CachedTXDBM

/- Embedding of src/lib/wallet/cachedtxdb.js: the in-memory credit
   index, the deferred CachedBatch and the membership queries. -/

/-- The credit payload stored in the cache; its contents are opaque to
    the cache mechanics. -/
structure CreditR where
  value : Nat
deriving DecidableEq, Repr

/-- The in-memory index: cachedCredits maps a tx hash (hex) to a map
    from output index to credit; cachedCoinsByAddress maps an account id
    to a map from tx hash to the set of output indexes. -/
structure CacheState where
  cachedCredits : List (String × List (Nat × CreditR))
  cachedCoinsByAddress : List (Nat × List (String × List Nat))
deriving DecidableEq, Repr

/-- The four recorded operations of a CachedBatch (BatchOps, lines
    52-57). -/
inductive BatchOp where
  | putCredit (hashHex : String) (index : Nat) (credit : CreditR)
  | putCoinByAddress (accountId : Nat) (hashHex : String) (index : Nat)
  | delCredit (hashHex : String) (index : Nat)
  | delCoinByAddress (accountId : Nat) (hashHex : String) (index : Nat)
deriving DecidableEq, Repr

/-- CachedBatch.insertCredit (lines 78-82) records a PutCredit followed
    by a PutCoinByAddress. -/
def insertCreditOps (hashHex : String) (index : Nat) (credit : CreditR) (accountId : Nat) : List BatchOp :=
  [.putCredit hashHex index credit, .putCoinByAddress accountId hashHex index]

/-- CachedBatch.removeCredit (lines 89-94) records a DelCredit followed
    by a DelCoinByAddress. -/
def removeCreditOps (hashHex : String) (index : Nat) (accountId : Nat) : List BatchOp :=
  [.delCredit hashHex index, .delCoinByAddress accountId hashHex index]

/-- Application of one recorded op to the in-memory index, as the switch
    in CachedBatch.write performs it (lines 109-141).  Each branch is
    ensureMap (or getOrCreate of a fresh Set) composed with the in-place
    mutation of the inner container, written back into the parent
    map. -/
def applyOp (st : CacheState) : BatchOp → CacheState
  | .putCredit h i c =>
    { st with
      cachedCredits := JsMap.setA st.cachedCredits h
        (JsMap.setA ((JsMap.getA st.cachedCredits h).getD []) i c) }
  | .putCoinByAddress a h i =>
    { st with
      cachedCoinsByAddress := JsMap.setA st.cachedCoinsByAddress a
        (JsMap.setA ((JsMap.getA st.cachedCoinsByAddress a).getD []) h
          (JsMap.addS ((JsMap.getA ((JsMap.getA st.cachedCoinsByAddress a).getD []) h).getD []) i)) }
  | .delCredit h i =>
    { st with
      cachedCredits := JsMap.setA st.cachedCredits h
        (JsMap.delA ((JsMap.getA st.cachedCredits h).getD []) i) }
  | .delCoinByAddress a h i =>
    { st with
      cachedCoinsByAddress := JsMap.setA st.cachedCoinsByAddress a
        (JsMap.setA ((JsMap.getA st.cachedCoinsByAddress a).getD []) h
          (JsMap.delS ((JsMap.getA ((JsMap.getA st.cachedCoinsByAddress a).getD []) h).getD []) i)) }

/-- CachedBatch.write (lines 96-142): first await the underlying
    persistent batch's write; only when it resolves does the loop apply
    the recorded ops to the in-memory index.  A rejected persistent
    write propagates before the loop runs, leaving the index exactly as
    it was. -/
def cachedBatchWrite (bdbWrite : Except ε Unit) (ops : List BatchOp) (st : CacheState) :
    Except ε Unit × CacheState :=
  match bdbWrite with
  | .error e => (.error e, st)
  | .ok _ => (.ok (), ops.foldl applyOp st)

/-- CachedTXDB.hasCoin (lines 298-300):
    ensureMap(this.cachedCredits, hash).has(index).  The ensureMap call
    installs an empty inner map for an unseen hash before the membership
    test. -/
def hasCoin (st : CacheState) (hashHex : String) (index : Nat) : Bool × CacheState :=
  ((JsMap.getA (JsMap.ensureA st.cachedCredits hashHex []).1 index).isSome,
   { st with cachedCredits := (JsMap.ensureA st.cachedCredits hashHex []).2 })

/-- CachedTXDB.hasCoinByAccount (lines 309-316): getOrCreate of a fresh
    Set inside ensureMap(this.cachedCoinsByAddress, acct), then has.
    Both levels install empty containers for unseen keys. -/
def hasCoinByAccount (st : CacheState) (acct : Nat) (hashHex : String) (index : Nat) :
    Bool × CacheState :=
  (JsMap.memS (JsMap.ensureA (JsMap.ensureA st.cachedCoinsByAddress acct []).1 hashHex []).1 index,
   { st with
     cachedCoinsByAddress := JsMap.setA (JsMap.ensureA st.cachedCoinsByAddress acct []).2 acct
       (JsMap.ensureA (JsMap.ensureA st.cachedCoinsByAddress acct []).1 hashHex []).2 })

end CachedTXDBM

namespace PluginBid

/- Embedding of handleBatchBid (src/unnamed handler file lines 132-217
   and src/lib/wallet/plugin.js lines 224-307): the idempotency-cache
   discipline around createBatchBid and sendMTX.  The building and
   broadcasting of the transaction (createBatchBid, fill, finalize,
   sendMTX) is a parameter returning the broadcast transaction's
   outputs, or an error when building or broadcasting throws. -/

/-- One bid of the request; the HTTP validator requires every field,
    including the idempotency key. -/
structure BidReq where
  name : String
  bid : Nat
  lockup : Nat
  idempotencyKey : String
deriving DecidableEq, Repr

/-- One output of the broadcast transaction, paired with the
    idempotency-key tag makeBatchBid attached to the parallel mtx output
    (http.js lines 4098-4100). -/
structure TxOut where
  isBid : Bool
  idempotencyKey : String
deriving DecidableEq, Repr

/-- A processed bid as postProcessBatchBids returns it. -/
structure ProcessedBid where
  idempotency_key : String
  tx_hash : String
  output_index : Nat
  fromCache : Bool
deriving DecidableEq, Repr

/-- The broadcast transaction: its hash and outputs. -/
structure BuiltTx where
  txHash : String
  outputs : List TxOut
deriving DecidableEq, Repr

/-- The per-wallet sendBidResults cache, key to completed result. -/
abbrev BidCache := List (String × ProcessedBid)

/-- util.postProcessBatchBids (util.js lines 285-301): each BID-covenant
    output at index i becomes a record (key from the tagged mtx output,
    tx hash, i). -/
def postProcessBatchBids (txHash : String) (outs : List TxOut) : List ProcessedBid :=
  outs.enum.filterMap (fun p =>
    if p.2.isBid then some ⟨p.2.idempotencyKey, txHash, p.1, false⟩ else none)

/-- The cache-splitting loop (handler lines 181-188): a bid whose key is
    cached lands in bidResults, the rest become uniqueBids. -/
def cacheSplit (cache : BidCache) : List BidReq → List ProcessedBid × List BidReq
  | [] => ([], [])
  | b :: rest =>
    match JsMap.getA cache b.idempotencyKey with
    | some r => (r :: (cacheSplit cache rest).1, (cacheSplit cache rest).2)
    | none => ((cacheSplit cache rest).1, b :: (cacheSplit cache rest).2)

/-- The cache-update loop after a successful broadcast (handler lines
    204-208): each processed bid is copied, tagged fromCache, and stored
    under its idempotency key. -/
def installCache (cache : BidCache) (processed : List ProcessedBid) : BidCache :=
  processed.foldl (fun c pb => JsMap.setA c pb.idempotency_key { pb with fromCache := true }) cache

/-- handleBatchBid: answer cached bids from the cache; when uncached
    bids remain, build and broadcast a transaction for exactly those,
    then install the processed outputs in the cache and append them to
    the results.  A build or broadcast failure propagates and the cache
    is left untouched. -/
def handleBatchBid (build : List BidReq → Except Unit BuiltTx) (bids : List BidReq)
    (cache : BidCache) : Except Unit (List ProcessedBid) × BidCache :=
  if (cacheSplit cache bids).2 = [] then
    (.ok (cacheSplit cache bids).1, cache)
  else
    match build (cacheSplit cache bids).2 with
    | .error e => (.error e, cache)
    | .ok tx =>
      (.ok ((cacheSplit cache bids).1 ++ postProcessBatchBids tx.txHash tx.outputs),
       installCache cache (postProcessBatchBids tx.txHash tx.outputs))

end PluginBid

/- Concrete instances used to exercise the embeddings. -/

namespace Util

/-- A two-domain map whose insertion order is ascending by output count. -/
def exPartialEntries : List (String × List Nat) :=
  [("a", [0]), ("b", [0, 0, 0])]

end Util

namespace WalletHttp

/-- An outputMap with 150 reveals for alpha and 60 for beta. -/
def exRevealEntries : List (String × List Nat) :=
  [("alpha", List.replicate 150 0), ("beta", List.replicate 60 0)]

/-- The winning outpoint of the example auction. -/
def exOwnerOutpoint : Outpoint := ⟨"aa", 0⟩

/-- A finish environment: a closed auction with owner reveal aa:0 (bid
    locked 1000, second price 500) and one losing reveal bb:1. -/
def exFinishEnv : FinishEnv :=
  { nameValid := true, nsFound := true, nsExpired := false, nsClosed := true,
    nsOwner := exOwnerOutpoint, nsValue := 500, nsHeight := 10, nameHash := "nh",
    reveals := [(exOwnerOutpoint, true), (⟨"bb", 1⟩, true)],
    getUnspentCoin := fun _ => some ⟨1000, 12, "addr"⟩,
    acctOwns := fun _ => true,
    resourceRaw := [1, 2], maxResourceSize := 512, renewalBlock := "rb" }

/-- The outpoints processNameForFinish produces on exFinishEnv. -/
def exFinishOuts : List (OutputM × Outpoint) :=
  [({ address := "addr", value := 500, covType := .REGISTER,
      covItems := [.hashItem "nh", .u32Item 10, .rawItem [1, 2], .hashItem "rb"] },
    ⟨"aa", 0⟩),
   ({ address := "addr", value := 1000, covType := .REDEEM,
      covItems := [.hashItem "nh", .u32Item 10] },
    ⟨"bb", 1⟩)]

/-- A register environment for the same auction, owner coin a matured
    REVEAL. -/
def exRegisterEnv : RegisterEnv :=
  { nameValid := true, nsFound := true, nsOwner := ⟨"aa", 0⟩, nsValue := 500,
    nsHeight := 10, nameHash := "nh", credit := some (⟨1000, 12, "addr"⟩, false),
    nsExpired := false, coinCovIsReveal := true, coinCovIsClaim := false,
    height := 20, coinbaseMaturity := 100, nsClosed := true,
    resource := some [3], maxResourceSize := 512, renewalBlock := "rb" }

/-- The transaction makeRegister produces on exRegisterEnv. -/
def exRegisterMtx : MtxM :=
  { inputs := [⟨"aa", 0⟩],
    outputs := [{ address := "addr", value := 500, covType := .REGISTER,
                  covItems := [.hashItem "nh", .u32Item 10, .rawItem [3],
                               .hashItem "rb"] }] }

/-- A concrete three-buffer hash standing in for blake2b.multi. -/
def exHash3 : Bytes → Bytes → Bytes → Bytes := fun a b c => a ++ b ++ c

/-- A concrete key-derivation function. -/
def exPubkey : Nat → Bytes := fun i => [i]

/-- A concrete commitment function standing in for rules.blind. -/
def exRulesBlind : Nat → Bytes → Bytes := fun v n => v :: n

/-- An open environment at height 5: every nonempty name is syntactically
    valid and OPENING from height 0, the name reserved hashes to
    reserved#h, and dup#h already has a pending OPEN. -/
def exOpenEnv : OpenEnv :=
  { verifyName := fun n => decide (0 < n.length),
    hashName := fun n => n ++ "#h",
    rawName := fun n => [n.length],
    height := 5,
    icannlockup := true,
    isReserved := fun h => decide (h = "reserved#h"),
    isLockedUp := fun _ => false,
    hasRollout := fun _ => true,
    nsState := fun _ => NameStateK.OPENING,
    nsHeight := fun _ => 0,
    isCovenantDoubleOpen := fun h => decide (h = "dup#h"),
    receiveAddress := "addr" }

end WalletHttp

namespace WalletFund

/-- A wallet holding two unspent credits and no locked coins. -/
def exFundSt : WalletSt :=
  ⟨[⟨⟨"t1", 0⟩, false⟩, ⟨⟨"t2", 1⟩, false⟩], []⟩

/-- Two producers that each select everything they are offered. -/
def exSelectors : List (List Outpoint → List Outpoint) :=
  [fun l => l, fun l => l]

end WalletFund

namespace CachedTXDBM

/-- The empty in-memory index. -/
def exCache0 : CacheState := ⟨[], []⟩

end CachedTXDBM

namespace PluginBid

/-- A bid request with idempotency key k1. -/
def exBid : BidReq := ⟨"alice", 1000, 2000, "k1"⟩

/-- The broadcast transaction of the example: a change output followed
    by the BID output tagged k1. -/
def exTx : BuiltTx := ⟨"feedbeef", [⟨false, ""⟩, ⟨true, "k1"⟩]⟩

/-- The processed bid postProcessBatchBids extracts from exTx. -/
def exPb : ProcessedBid := ⟨"k1", "feedbeef", 1, false⟩

/-- A builder that broadcasts exTx. -/
def exBuild : List BidReq → Except Unit BuiltTx := fun _ => .ok exTx

end PluginBid

/- Helper lemmas. -/

namespace JsMap

theorem getA_setA_self [DecidableEq κ] (m : List (κ × ν)) (k : κ) (v : ν) :
    getA (setA m k v) k = some v := by
  induction m with
  | nil => simp [setA, getA]
  | cons e rest ih =>
    obtain ⟨k', v'⟩ := e
    by_cases h : k' = k
    · simp [setA, getA, h]
    · simp [setA, getA, h, ih]

theorem getA_setA_of_ne [DecidableEq κ] (m : List (κ × ν)) (k k' : κ) (v : ν)
    (h : k ≠ k') : getA (setA m k v) k' = getA m k' := by
  induction m with
  | nil => simp [setA, getA, h]
  | cons e rest ih =>
    obtain ⟨k0, v0⟩ := e
    by_cases h0 : k0 = k
    · simp [setA, getA, h0, h]
    · simp only [setA, if_neg h0, getA]
      by_cases h1 : k0 = k'
      · simp [h1]
      · simp [h1, ih]

theorem getA_setA_isSome [DecidableEq κ] (m : List (κ × ν)) (k k' : κ) (v : ν)
    (h : (getA m k').isSome = true) : (getA (setA m k v) k').isSome = true := by
  by_cases he : k = k'
  · subst he; simp [getA_setA_self]
  · rw [getA_setA_of_ne m k k' v he]; exact h

theorem getA_ensureA_self [DecidableEq κ] (m : List (κ × ν)) (k : κ) (d : ν) :
    getA (ensureA m k d).2 k = some (ensureA m k d).1 := by
  unfold ensureA
  cases h : getA m k with
  | none => simp [getA_setA_self]
  | some v => simp [h]

theorem ensureA_of_none [DecidableEq κ] (m : List (κ × ν)) (k : κ) (d : ν)
    (h : getA m k = none) : ensureA m k d = (d, setA m k d) := by
  simp [ensureA, h]

theorem ensureA_of_some [DecidableEq κ] (m : List (κ × ν)) (k : κ) (d v : ν)
    (h : getA m k = some v) : ensureA m k d = (v, m) := by
  simp [ensureA, h]

theorem getA_ensureA_isSome [DecidableEq κ] (m : List (κ × ν)) (k k' : κ) (d : ν)
    (h : (getA m k').isSome = true) : (getA (ensureA m k d).2 k').isSome = true := by
  unfold ensureA
  cases hk : getA m k with
  | none => simpa using getA_setA_isSome m k k' d h
  | some v => simpa using h

end JsMap

namespace Util

theorem sumCounts_nil : sumCounts [] = 0 := rfl

theorem sumCounts_cons (p : DomainCount) (l : List DomainCount) :
    sumCounts (p :: l) = p.bidCount + sumCounts l := by
  simp [sumCounts]

theorem createStrictBatchRun_sum {α : Type _} (limit : Nat) (entries : List (String × List α)) :
    ∀ total, total ≤ limit →
      total + sumCounts (createStrictBatchRun limit total entries).1 ≤ limit := by
  induction entries with
  | nil => intro total h; simpa [createStrictBatchRun, sumCounts] using h
  | cons e rest ih =>
    intro total h
    obtain ⟨name, outputs⟩ := e
    by_cases hc : total + outputs.length > limit
    · simpa [createStrictBatchRun, hc] using ih total h
    · have h2 : total + outputs.length ≤ limit := Nat.le_of_not_lt hc
      have h3 := ih (total + outputs.length) h2
      simp only [createStrictBatchRun, if_neg hc, sumCounts_cons] at h3 ⊢
      omega

theorem createStrictBatchRun_mem {α : Type _} (limit : Nat) (entries : List (String × List α)) :
    ∀ total p,
      (p ∈ (createStrictBatchRun limit total entries).1 ∨
       p ∈ (createStrictBatchRun limit total entries).2) →
      ∃ l, (p.name, l) ∈ entries ∧ p.bidCount = l.length := by
  induction entries with
  | nil => intro total p h; simp [createStrictBatchRun] at h
  | cons e rest ih =>
    intro total p h
    obtain ⟨name, outputs⟩ := e
    by_cases hc : total + outputs.length > limit
    · simp only [createStrictBatchRun, if_pos hc, List.mem_cons] at h
      rcases h with h | (h | h)
      · obtain ⟨l, hl, he⟩ := ih total p (Or.inl h)
        exact ⟨l, List.mem_cons_of_mem _ hl, he⟩
      · subst h
        exact ⟨outputs, List.mem_cons_self _ _, rfl⟩
      · obtain ⟨l, hl, he⟩ := ih total p (Or.inr h)
        exact ⟨l, List.mem_cons_of_mem _ hl, he⟩
    · simp only [createStrictBatchRun, if_neg hc, List.mem_cons] at h
      rcases h with (h | h) | h
      · subst h
        exact ⟨outputs, List.mem_cons_self _ _, rfl⟩
      · obtain ⟨l, hl, he⟩ := ih (total + outputs.length) p (Or.inl h)
        exact ⟨l, List.mem_cons_of_mem _ hl, he⟩
      · obtain ⟨l, hl, he⟩ := ih (total + outputs.length) p (Or.inr h)
        exact ⟨l, List.mem_cons_of_mem _ hl, he⟩

theorem mapGet_eq_of_mem {α : Type _} (entries : List (String × List α)) :
    ∀ (n : String) (l : List α),
      (entries.map Prod.fst).Nodup → (n, l) ∈ entries → mapGet entries n = some l := by
  induction entries with
  | nil => intro n l _ h; simp at h
  | cons e rest ih =>
    intro n l hnd hm
    obtain ⟨k, v⟩ := e
    simp only [List.map_cons, List.nodup_cons] at hnd
    rcases List.mem_cons.mp hm with h | h
    · simp only [Prod.mk.injEq] at h
      obtain ⟨rfl, rfl⟩ := h
      simp [mapGet]
    · have hk : k ≠ n := by
        intro he
        subst he
        exact hnd.1 (List.mem_map_of_mem Prod.fst h)
      simp only [mapGet, if_neg hk]
      exact ih n l hnd.2 h

end Util

namespace Util

theorem createBatchRun_sum {α : Type _} (limit : Nat) (entries : List (String × List α)) :
    ∀ total, total ≤ limit →
      total + sumCounts (createBatchRun limit total entries).1 ≤ limit := by
  induction entries with
  | nil => intro total h; simpa [createBatchRun, sumCounts] using h
  | cons e rest ih =>
    intro total h
    obtain ⟨name, outputs⟩ := e
    by_cases hc : total + outputs.length > limit
    · by_cases hs : 0 < limit - total
      · have h1 := ih limit (le_refl limit)
        simp only [createBatchRun, if_pos hc, if_pos hs, sumCounts_cons] at h1 ⊢
        omega
      · have h1 := ih total h
        simpa [createBatchRun, hc, hs] using h1
    · have h2 : total + outputs.length ≤ limit := Nat.le_of_not_lt hc
      have h3 := ih (total + outputs.length) h2
      simp only [createBatchRun, if_neg hc, sumCounts_cons] at h3 ⊢
      omega

theorem createBatchRun_eq_fill {α : Type _} (limit : Nat) (entries : List (String × List α)) :
    ∀ total, total ≤ limit →
      createBatchRun limit total entries = fillBudgetInOrder (limit - total) entries := by
  induction entries with
  | nil => intro total h; simp [createBatchRun, fillBudgetInOrder]
  | cons e rest ih =>
    intro total h
    obtain ⟨name, outputs⟩ := e
    by_cases hc : total + outputs.length > limit
    · have hb : ¬ outputs.length ≤ limit - total := by omega
      by_cases hs : 0 < limit - total
      · have h1 := ih limit (le_refl limit)
        rw [Nat.sub_self] at h1
        simp only [createBatchRun, if_pos hc, if_pos hs, fillBudgetInOrder, if_neg hb,
          h1]
      · have h0 : limit - total = 0 := by omega
        have hlen : ¬ outputs.length ≤ 0 := by omega
        have h1 := ih total h
        rw [h0] at h1
        simp [createBatchRun, hc, h0, fillBudgetInOrder, hlen, h1]
    · have hb : outputs.length ≤ limit - total := by omega
      have h1 := ih (total + outputs.length) (by omega)
      have h2 : limit - (total + outputs.length) = limit - total - outputs.length := by omega
      rw [h2] at h1
      simp only [createBatchRun, if_neg hc, fillBudgetInOrder, if_pos hb, h1]

/-- C5 (amended): createBatch processes the domains in the order the
    entries iterate (Map insertion order; the Boolean sort comparator
    never reorders the array), filling the 
    budget in that order: a domain that fully fits is taken whole, a
    domain that does not fit while slots remain contributes a partial
    share equal to the remaining slots with its leftover count recorded
    as rejected, and every later domain is rejected whole; the accepted
    output count never exceeds the limit. -/
theorem createBatch_insertion_order {α : Type _} (limit : Nat) (entries : List (String × List α)) :
    createBatch limit entries = fillBudgetInOrder limit entries ∧
    sumCounts (createBatch limit entries).1 ≤ limit := by
  constructor
  · simpa [createBatch, sortJsByLengthBool] using
      createBatchRun_eq_fill limit entries 0 (Nat.zero_le _)
  · simpa [createBatch, sortJsByLengthBool] using
      createBatchRun_sum limit entries 0 (Nat.zero_le _)

/-- C5 (counterexample): on a map whose insertion order is ascending by
    output count, createBatch does not process the domains largest-count
    first: with limit 3 and domains a (1 output) then b (3 outputs), the
    source accepts a whole plus a partial share of b, while the claimed
    largest-first policy would accept b whole and reject a. -/
theorem createBatch_counterexample_not_sorted_desc :
    Util.createBatch 3 Util.exPartialEntries ≠ Util.createBatchSpecSortedDesc 3 Util.exPartialEntries ∧
    Util.createBatch 3 Util.exPartialEntries = ([⟨"a", 1⟩, ⟨"b", 2⟩], [⟨"b", 1⟩]) ∧
    Util.createBatchSpecSortedDesc 3 Util.exPartialEntries = ([⟨"b", 3⟩], [⟨"a", 1⟩]) := by
  refine ⟨?_, ?_, ?_⟩ <;> decide

/-- C10: the batch builders throw only for a null or undefined map or a
    falsy limit; an empty Map passes the guard -- the comparison
    entries().length === 0 reads the undefined length property of the
    entries iterator and is never true -- and yields empty valid and
    rejected lists. -/
theorem createBatch_guard_empty_map (limit : Nat) (m : Option (List (String × List Nat))) :
    ((createBatchChecked limit m).toOption.isSome ↔ ¬(limit = 0 ∨ m = none)) ∧
    ((createStrictBatchChecked limit m).toOption.isSome ↔ ¬(limit = 0 ∨ m = none)) ∧
    (limit ≠ 0 →
      createBatchChecked limit (some ([] : List (String × List Nat))) = .ok ([], []) ∧
      createStrictBatchChecked limit (some ([] : List (String × List Nat))) = .ok ([], [])) := by
  refine ⟨?_, ?_, ?_⟩
  · by_cases h0 : limit = 0
    · simp [createBatchChecked, h0, Except.toOption]
    · cases m with
      | none => simp [createBatchChecked, h0, Except.toOption]
      | some entries => simp [createBatchChecked, h0, Except.toOption]
  · by_cases h0 : limit = 0
    · simp [createStrictBatchChecked, h0, Except.toOption]
    · cases m with
      | none => simp [createStrictBatchChecked, h0, Except.toOption]
      | some entries => simp [createStrictBatchChecked, h0, Except.toOption]
  · intro h0
    constructor
    · simp [createBatchChecked, h0, createBatch, sortJsByLengthBool, createBatchRun]
    · simp [createStrictBatchChecked, h0, createStrictBatch, sortJsByLengthBool,
        createStrictBatchRun]

/-- Witness for createBatch_guard_empty_map at limit 1 and the empty
    map. -/
theorem createBatch_guard_empty_map_witness :
    (1 ≠ 0) ∧
    createBatchChecked 1 (some ([] : List (String × List Nat))) = .ok ([], []) ∧
    createStrictBatchChecked 1 (some ([] : List (String × List Nat))) = .ok ([], []) :=
  ⟨by decide, (createBatch_guard_empty_map 1 (some [])).2.2 (by decide)⟩

end Util

namespace WalletHttp

theorem revealOutputs_foldl_length {α : Type _} (entries : List (String × List α)) :
    ∀ (valid : List Util.DomainCount) (acc : List α),
      (valid.foldl
        (fun a vd => a ++ ((Util.mapGet entries vd.name).getD []).take vd.bidCount)
        acc).length ≤ acc.length + Util.sumCounts valid := by
  intro valid
  induction valid with
  | nil => intro acc; simp [Util.sumCounts]
  | cons vd rest ih =>
    intro acc
    have h1 := ih (acc ++ ((Util.mapGet entries vd.name).getD []).take vd.bidCount)
    have h2 : (((Util.mapGet entries vd.name).getD []).take vd.bidCount).length ≤ vd.bidCount := by
      simp [List.length_take]
    simp only [List.foldl_cons, Util.sumCounts_cons] at h1 ⊢
    rw [List.length_append] at h1
    omega

/-- C2: batch REVEAL packing is strict with budget 200.  Every accepted
    domain is taken with its full reveal-output list (its bidCount
    equals the length of its entry in the output map, so the slice in
    makeBatchReveal is the whole list and no name is partially
    revealed); every rejected domain is rejected whole and surfaced as a
    per-name error; and the transaction makeBatchReveal assembles has at
    most 200 outputs. -/
theorem batchReveal_strict_packing {α : Type _} (entries : List (String × List α))
    (hnd : (entries.map Prod.fst).Nodup) :
    (∀ vd ∈ (Util.createStrictBatch MAX_REVEALS_PER_BATCH_TX entries).1,
        ∃ l, Util.mapGet entries vd.name = some l ∧ vd.bidCount = l.length) ∧
    (∀ rd ∈ (Util.createStrictBatch MAX_REVEALS_PER_BATCH_TX entries).2,
        ∃ l, (rd.name, l) ∈ entries ∧ rd.bidCount = l.length) ∧
    Util.sumCounts (Util.createStrictBatch MAX_REVEALS_PER_BATCH_TX entries).1 ≤
      MAX_REVEALS_PER_BATCH_TX ∧
    (makeBatchRevealOutputs entries).length ≤ MAX_REVEALS_PER_BATCH_TX ∧
    makeBatchRevealRejectedErrors entries =
      (Util.createStrictBatch MAX_REVEALS_PER_BATCH_TX entries).2.map Util.DomainCount.name := by
  have hsum : Util.sumCounts (Util.createStrictBatch MAX_REVEALS_PER_BATCH_TX entries).1 ≤
      MAX_REVEALS_PER_BATCH_TX := by
    simpa [Util.createStrictBatch, Util.sortJsByLengthBool] using
      Util.createStrictBatchRun_sum MAX_REVEALS_PER_BATCH_TX entries 0 (Nat.zero_le _)
  refine ⟨?_, ?_, hsum, ?_, rfl⟩
  · intro vd hvd
    have hm := Util.createStrictBatchRun_mem MAX_REVEALS_PER_BATCH_TX entries 0 vd
      (Or.inl (by simpa [Util.createStrictBatch, Util.sortJsByLengthBool] using hvd))
    obtain ⟨l, hl, he⟩ := hm
    exact ⟨l, Util.mapGet_eq_of_mem entries vd.name l hnd hl, he⟩
  · intro rd hrd
    exact Util.createStrictBatchRun_mem MAX_REVEALS_PER_BATCH_TX entries 0 rd
      (Or.inr (by simpa [Util.createStrictBatch, Util.sortJsByLengthBool] using hrd))
  · calc (makeBatchRevealOutputs entries).length
        ≤ ([] : List α).length +
            Util.sumCounts (Util.createStrictBatch MAX_REVEALS_PER_BATCH_TX entries).1 :=
          revealOutputs_foldl_length entries _ []
      _ ≤ MAX_REVEALS_PER_BATCH_TX := by simpa using hsum

/-- Witness for batchReveal_strict_packing on a concrete output map
    with 150 reveals for alpha and 60 for beta. -/
theorem batchReveal_strict_packing_witness :
    (exRevealEntries.map Prod.fst).Nodup ∧
    ((∀ vd ∈ (Util.createStrictBatch MAX_REVEALS_PER_BATCH_TX exRevealEntries).1,
        ∃ l, Util.mapGet exRevealEntries vd.name = some l ∧ vd.bidCount = l.length) ∧
     (∀ rd ∈ (Util.createStrictBatch MAX_REVEALS_PER_BATCH_TX exRevealEntries).2,
        ∃ l, (rd.name, l) ∈ exRevealEntries ∧ rd.bidCount = l.length) ∧
     Util.sumCounts (Util.createStrictBatch MAX_REVEALS_PER_BATCH_TX exRevealEntries).1 ≤
       MAX_REVEALS_PER_BATCH_TX ∧
     (makeBatchRevealOutputs exRevealEntries).length ≤ MAX_REVEALS_PER_BATCH_TX ∧
     makeBatchRevealRejectedErrors exRevealEntries =
       (Util.createStrictBatch MAX_REVEALS_PER_BATCH_TX exRevealEntries).2.map
         Util.DomainCount.name) :=
  ⟨by decide, batchReveal_strict_packing exRevealEntries (by decide)⟩

end WalletHttp

namespace WalletHttp

theorem processRevealForFinish_register (env : FinishEnv) (prevout : Outpoint) (own : Bool)
    (o : OutputM × Outpoint) (h : processRevealForFinish env prevout own = .ok (some o))
    (hreg : o.1.covType = CovType.REGISTER) :
    o.1.value = env.nsValue ∧ o.2 = env.nsOwner := by
  unfold processRevealForFinish at h
  repeat' split at h
  all_goals first
    | exact Except.noConfusion h
    | (injection h with h; exact Option.noConfusion h)
    | (injection h with h; injection h with h; subst h; simp_all)

theorem processFinishLoop_register (env : FinishEnv) :
    ∀ (reveals : List (Outpoint × Bool)) (outs : List (OutputM × Outpoint)),
      processFinishLoop env reveals = .ok outs →
      ∀ o ∈ outs, o.1.covType = CovType.REGISTER →
        o.1.value = env.nsValue ∧ o.2 = env.nsOwner := by
  intro reveals
  induction reveals with
  | nil =>
    intro outs h o ho hreg
    simp only [processFinishLoop, Except.ok.injEq] at h
    subst h
    simp at ho
  | cons rv rest ih =>
    intro outs h o ho hreg
    obtain ⟨prevout, own⟩ := rv
    simp only [processFinishLoop] at h
    cases hpr : processRevealForFinish env prevout own with
    | error e => rw [hpr] at h; simp at h
    | ok opt =>
      rw [hpr] at h
      cases opt with
      | none => exact ih outs h o ho hreg
      | some o' =>
        cases hrec : processFinishLoop env rest with
        | error e => rw [hrec] at h; simp at h
        | ok os =>
          rw [hrec] at h
          simp only [Except.ok.injEq] at h
          subst h
          rcases List.mem_cons.mp ho with h | hmem
          · subst h
            exact processRevealForFinish_register env prevout own o hpr hreg
          · exact ih os hrec o hmem hreg

/-- C1: on the finish path, every REGISTER output carries value
    ns.value, the second-highest revealed bid, and spends the winning
    outpoint ns.owner; the private _makeRegister likewise emits a single
    REGISTER output of value ns.value spending ns.owner. -/
theorem register_output_value_second_price :
    (∀ (env : FinishEnv) (outs : List (OutputM × Outpoint)),
       processNameForFinish env = Except.ok outs →
       ∀ o ∈ outs, o.1.covType = CovType.REGISTER →
         o.1.value = env.nsValue ∧ o.2 = env.nsOwner) ∧
    (∀ (env : RegisterEnv) (mtx : MtxM),
       makeRegister env = Except.ok mtx →
       mtx.inputs = [env.nsOwner] ∧
       ∀ o ∈ mtx.outputs, o.covType = CovType.REGISTER ∧ o.value = env.nsValue) := by
  constructor
  · intro env outs h o ho hreg
    unfold processNameForFinish at h
    split at h
    · exact absurd h (by simp)
    split at h
    · exact absurd h (by simp)
    split at h
    · exact absurd h (by simp)
    split at h
    · exact absurd h (by simp)
    cases hloop : processFinishLoop env env.reveals with
    | error e => rw [hloop] at h; simp at h
    | ok os =>
      rw [hloop] at h
      cases os with
      | nil => simp at h
      | cons a as =>
        simp only [Except.ok.injEq] at h
        subst h
        exact processFinishLoop_register env env.reveals (a :: as) hloop o ho hreg
  · intro env mtx h
    unfold makeRegister at h
    repeat' split at h
    all_goals first
      | exact Except.noConfusion h
      | (injection h with h; subst h;
         exact ⟨rfl, by
           intro o ho
           simp only [List.mem_singleton] at ho
           subst ho
           exact ⟨rfl, rfl⟩⟩)

/-- Witness for register_output_value_second_price on a closed auction
    where the wallet holds the winning reveal aa:0, locked 1000, second
    price 500. -/
theorem register_output_value_second_price_witness :
    processNameForFinish exFinishEnv = Except.ok exFinishOuts ∧
    (∀ o ∈ exFinishOuts, o.1.covType = CovType.REGISTER →
        o.1.value = exFinishEnv.nsValue ∧ o.2 = exFinishEnv.nsOwner) ∧
    makeRegister exRegisterEnv = Except.ok exRegisterMtx ∧
    (exRegisterMtx.inputs = [exRegisterEnv.nsOwner] ∧
     ∀ o ∈ exRegisterMtx.outputs,
       o.covType = CovType.REGISTER ∧ o.value = exRegisterEnv.nsValue) :=
  ⟨by rfl,
   register_output_value_second_price.1 exFinishEnv exFinishOuts (by rfl),
   by rfl,
   register_output_value_second_price.2 exRegisterEnv exRegisterMtx (by rfl)⟩

/-- C4: the bid blind is rules.blind(value, nonce) with the nonce
    derived as blake2b.multi(addr_hash, account_pubkey(idx), name_hash)
    at idx = (value_hi xor value_lo) & 0x7fffffff, exactly the spec
    formula for safe-integer bid values; the BlindStore record saved is
    (value, nonce); and the derivation is deterministic in the name
    hash, address and value, so a lost nonce is regenerated bit for
    bit. -/
theorem generateNonce_blind_formula
    (blake2bMulti : Bytes → Bytes → Bytes → Bytes) (accountPubkey : Nat → Bytes)
    (rulesBlind : Nat → Bytes → Bytes) (nameHash addrHash : Bytes) (value : Nat)
    (hval : value < 2 ^ 53) :
    nonceIndex value = specNonceIndex value ∧
    generateNonce blake2bMulti accountPubkey nameHash addrHash value =
      blake2bMulti addrHash (accountPubkey (specNonceIndex value)) nameHash ∧
    (generateBlind blake2bMulti accountPubkey rulesBlind nameHash addrHash value).1 =
      rulesBlind value (generateNonce blake2bMulti accountPubkey nameHash addrHash value) ∧
    (generateBlind blake2bMulti accountPubkey rulesBlind nameHash addrHash value).2 =
      (value, generateNonce blake2bMulti accountPubkey nameHash addrHash value) ∧
    (∀ v2 a2 n2, v2 = value → a2 = addrHash → n2 = nameHash →
       generateNonce blake2bMulti accountPubkey n2 a2 v2 =
         generateNonce blake2bMulti accountPubkey nameHash addrHash value ∧
       generateBlind blake2bMulti accountPubkey rulesBlind n2 a2 v2 =
         generateBlind blake2bMulti accountPubkey rulesBlind nameHash addrHash value) := by
  have h32 : (2 : Nat) ^ 32 = 4294967296 := by norm_num
  have hidx : nonceIndex value = specNonceIndex value := by
    have h64 : value < 4294967296 * 4294967296 := by
      calc value < 2 ^ 53 := hval
        _ < 4294967296 * 4294967296 := by norm_num
    have hdiv : value / 4294967296 < 4294967296 := Nat.div_lt_of_lt_mul h64
    unfold nonceIndex specNonceIndex jsHiWord jsLoWord
    rw [h32, Nat.mod_eq_of_lt hdiv]
  refine ⟨hidx, ?_, rfl, rfl, ?_⟩
  · unfold generateNonce
    rw [hidx]
  · intro v2 a2 n2 hv ha hn
    subst hv; subst ha; subst hn
    exact ⟨rfl, rfl⟩

/-- Witness for generateNonce_blind_formula at bid value 2^40 + 5 with
    concrete hash and key-derivation functions. -/
theorem generateNonce_blind_formula_witness :
    ((1099511627781 : Nat) < 2 ^ 53) ∧
    (nonceIndex 1099511627781 = specNonceIndex 1099511627781 ∧
     generateNonce exHash3 exPubkey [7] [9] 1099511627781 =
       exHash3 [9] (exPubkey (specNonceIndex 1099511627781)) [7] ∧
     (generateBlind exHash3 exPubkey exRulesBlind [7] [9] 1099511627781).1 =
       exRulesBlind 1099511627781 (generateNonce exHash3 exPubkey [7] [9] 1099511627781) ∧
     (generateBlind exHash3 exPubkey exRulesBlind [7] [9] 1099511627781).2 =
       (1099511627781, generateNonce exHash3 exPubkey [7] [9] 1099511627781) ∧
     (∀ v2 a2 n2, v2 = 1099511627781 → a2 = [9] → n2 = [7] →
        generateNonce exHash3 exPubkey n2 a2 v2 =
          generateNonce exHash3 exPubkey [7] [9] 1099511627781 ∧
        generateBlind exHash3 exPubkey exRulesBlind n2 a2 v2 =
          generateBlind exHash3 exPubkey exRulesBlind [7] [9] 1099511627781)) :=
  ⟨by norm_num,
   generateNonce_blind_formula exHash3 exPubkey exRulesBlind [7] [9] 1099511627781
     (by norm_num)⟩

end WalletHttp

namespace WalletHttp

theorem processBatchOpenName_ok_of_legal (env : OpenEnv) (name : String)
    (hleg : openLegal env name = true) :
    processBatchOpenName env name =
      .ok { address := env.receiveAddress, value := 0, covType := CovType.OPEN,
            covItems := [CovItem.hashItem (env.hashName name), CovItem.u32Item 0,
                         CovItem.rawItem (env.rawName name)] } := by
  unfold openLegal at hleg
  simp only [Bool.and_eq_true, Bool.not_eq_true', decide_eq_true_eq,
    Bool.or_eq_true] at hleg
  obtain ⟨⟨⟨⟨⟨⟨h1, h2⟩, h3⟩, h4⟩, h5⟩, h6⟩, h7⟩ := hleg
  rcases h6 with h6 | h6 <;>
    simp [processBatchOpenName, h1, h2, h3, h4, h5, h6, h7]

theorem processBatchOpenName_legal_of_ok (env : OpenEnv) (name : String)
    (out : OutputM) (h : processBatchOpenName env name = .ok out) :
    openLegal env name = true ∧
    out = { address := env.receiveAddress, value := 0, covType := CovType.OPEN,
            covItems := [CovItem.hashItem (env.hashName name), CovItem.u32Item 0,
                         CovItem.rawItem (env.rawName name)] } := by
  unfold processBatchOpenName at h
  repeat' split at h
  all_goals first
    | exact Except.noConfusion h
    | (injection h with h; subst h;
       refine ⟨?_, rfl⟩;
       simp_all [openLegal, Bool.not_eq_true];
       refine ⟨?_, by tauto⟩;
       by_cases hb : env.icannlockup = true;
       · right; tauto
       · left
         cases hic : env.icannlockup
         · rfl
         · exact absurd hic hb)

/-- C7: makeBatchOpen includes an OPEN output for a name exactly when
    the name passes syntactic validation, is not reserved, not locked up
    under ICANN lockup, has reached rollout, the (possibly expired and
    re-derived) name state at height h is OPENING with ns.height 0 or h,
    and the TXDB double-open check is clear; the emitted output is a
    single OPEN covenant with items (name_hash, 0, raw_name), value 0,
    to the wallet receive address; every failing name is skipped and
    recorded as a per-name error instead. -/
theorem makeBatchOpen_legal (env : OpenEnv) (names : List String) :
    (∀ name, (∃ out, processBatchOpenName env name = Except.ok out) ↔
       openLegal env name = true) ∧
    (∀ name out, processBatchOpenName env name = Except.ok out →
       out = { address := env.receiveAddress, value := 0, covType := CovType.OPEN,
               covItems := [CovItem.hashItem (env.hashName name), CovItem.u32Item 0,
                            CovItem.rawItem (env.rawName name)] }) ∧
    (makeBatchOpen env names).1 =
      names.filterMap (fun n => (processBatchOpenName env n).toOption) ∧
    (makeBatchOpen env names).2 = names.filter (fun n => !openLegal env n) := by
  refine ⟨?_, ?_, ?_, ?_⟩
  · intro name
    constructor
    · rintro ⟨out, h⟩
      exact (processBatchOpenName_legal_of_ok env name out h).1
    · intro hleg
      exact ⟨_, processBatchOpenName_ok_of_legal env name hleg⟩
  · intro name out h
    exact (processBatchOpenName_legal_of_ok env name out h).2
  · induction names with
    | nil => simp [makeBatchOpen]
    | cons n rest ih =>
      cases hp : processBatchOpenName env n with
      | error e => simp [makeBatchOpen, hp, Except.toOption, ih]
      | ok out => simp [makeBatchOpen, hp, Except.toOption, ih]
  · induction names with
    | nil => simp [makeBatchOpen]
    | cons n rest ih =>
      cases hp : processBatchOpenName env n with
      | error e =>
        have hleg : openLegal env n = false := by
          by_contra hne
          have ht : openLegal env n = true := by
            cases hq : openLegal env n
            · exact absurd hq hne
            · rfl
          rw [processBatchOpenName_ok_of_legal env n ht] at hp
          exact Except.noConfusion hp
        simp [makeBatchOpen, hp, hleg, ih]
      | ok out =>
        have hleg : openLegal env n = true :=
          (processBatchOpenName_legal_of_ok env n out hp).1
        simp [makeBatchOpen, hp, hleg, ih]

end WalletHttp

namespace CachedTXDBM

/-- C8: CachedBatch.write applies the recorded operations to the
    in-memory index only after the persistent batch write resolves: a
    failed persistent write propagates the error and leaves the index
    exactly as it was, and a successful one applies exactly the recorded
    ops in order. -/
theorem cachedBatchWrite_atomic {ε : Type _} (ops : List BatchOp) (st : CacheState) :
    (∀ e : ε, cachedBatchWrite (Except.error e) ops st = (Except.error e, st)) ∧
    cachedBatchWrite ((Except.ok () : Except ε Unit)) ops st =
      (Except.ok (), ops.foldl applyOp st) :=
  ⟨fun _ => rfl, rfl⟩

/-- C9: the membership queries are not read-only.  hasCoin on an unseen
    hash returns false but installs an empty inner map under that hash;
    hasCoinByAccount on an unseen account installs the account entry
    with an empty hash map entry inside it; and both only ever grow the
    key set of the index. -/
theorem hasCoin_state_mutation (st : CacheState) (h : String) (i : Nat) (a : Nat) :
    (JsMap.getA st.cachedCredits h = none →
       (hasCoin st h i).1 = false ∧
       JsMap.getA (hasCoin st h i).2.cachedCredits h = some []) ∧
    (∀ k, (JsMap.getA st.cachedCredits k).isSome = true →
       (JsMap.getA (hasCoin st h i).2.cachedCredits k).isSome = true) ∧
    (JsMap.getA (hasCoin st h i).2.cachedCredits h).isSome = true ∧
    (JsMap.getA st.cachedCoinsByAddress a = none →
       (hasCoinByAccount st a h i).1 = false ∧
       ∃ m, JsMap.getA (hasCoinByAccount st a h i).2.cachedCoinsByAddress a = some m ∧
            JsMap.getA m h = some []) ∧
    (∀ k, (JsMap.getA st.cachedCoinsByAddress k).isSome = true →
       (JsMap.getA (hasCoinByAccount st a h i).2.cachedCoinsByAddress k).isSome = true) := by
  refine ⟨?_, ?_, ?_, ?_, ?_⟩
  · intro hn
    constructor
    · simp [hasCoin, JsMap.ensureA_of_none st.cachedCredits h [] hn, JsMap.getA]
    · simp only [hasCoin]
      rw [JsMap.ensureA_of_none st.cachedCredits h [] hn]
      exact JsMap.getA_setA_self st.cachedCredits h []
  · intro k hk
    simp only [hasCoin]
    exact JsMap.getA_ensureA_isSome st.cachedCredits h k [] hk
  · simp only [hasCoin]
    rw [JsMap.getA_ensureA_self]
    rfl
  · intro hn
    constructor
    · simp [hasCoinByAccount, JsMap.ensureA, JsMap.getA, JsMap.memS, hn]
    · refine ⟨JsMap.setA ([] : List (String × List Nat)) h [], ?_, ?_⟩
      · simp only [hasCoinByAccount]
        rw [JsMap.ensureA_of_none st.cachedCoinsByAddress a [] hn]
        have hinner : JsMap.ensureA ([] : List (String × List Nat)) h [] =
            ([], JsMap.setA ([] : List (String × List Nat)) h []) := by
          simp [JsMap.ensureA, JsMap.getA]
        rw [hinner]
        exact JsMap.getA_setA_self _ a _
      · simp [JsMap.setA, JsMap.getA]
  · intro k hk
    simp only [hasCoinByAccount]
    exact JsMap.getA_setA_isSome _ a k _
      (JsMap.getA_ensureA_isSome st.cachedCoinsByAddress a k [] hk)

/-- Witness for hasCoin_state_mutation on the empty index: querying hash
    aa (and account 7) returns false yet installs the empty
    containers. -/
theorem hasCoin_state_mutation_witness :
    ((hasCoin exCache0 "aa" 0).1 = false ∧
     JsMap.getA (hasCoin exCache0 "aa" 0).2.cachedCredits "aa" = some []) ∧
    ((hasCoinByAccount exCache0 7 "aa" 0).1 = false ∧
     ∃ m, JsMap.getA (hasCoinByAccount exCache0 7 "aa" 0).2.cachedCoinsByAddress 7 = some m ∧
          JsMap.getA m "aa" = some []) :=
  ⟨(hasCoin_state_mutation exCache0 "aa" 0 7).1 rfl,
   (hasCoin_state_mutation exCache0 "aa" 0 7).2.2.2.1 rfl⟩

end CachedTXDBM

namespace WalletFund

theorem mem_fillCoins_unspent (st : WalletSt) (x : Outpoint) (hx : x ∈ fillCoins st) :
    ∃ cr ∈ st.credits, cr.op = x ∧ cr.spent = false := by
  simp only [fillCoins, filterLocked, getCoins, List.mem_filter, List.mem_map] at hx
  obtain ⟨⟨cr, ⟨hmem, hsp⟩, rfl⟩, _⟩ := hx
  exact ⟨cr, hmem, rfl, by simpa using hsp⟩

theorem markSpent_spent_of_mem (st : WalletSt) (ins : List Outpoint) (x : Outpoint)
    (hx : x ∈ ins) :
    ∀ cr ∈ (markSpent st ins).credits, cr.op = x → cr.spent = true := by
  intro cr hcr hop
  simp only [markSpent, List.mem_map] at hcr
  obtain ⟨c, hc, rfl⟩ := hcr
  by_cases hin : c.op ∈ ins
  · simp [hin]
  · simp only [if_neg hin] at hop ⊢
    exact absurd (by rw [hop]; exact hx) hin

theorem markSpent_preserves_spent (st : WalletSt) (ins : List Outpoint) (x : Outpoint)
    (hsp : ∀ cr ∈ st.credits, cr.op = x → cr.spent = true) :
    ∀ cr ∈ (markSpent st ins).credits, cr.op = x → cr.spent = true := by
  intro cr hcr hop
  simp only [markSpent, List.mem_map] at hcr
  obtain ⟨c, hc, rfl⟩ := hcr
  by_cases hin : c.op ∈ ins
  · simp [hin]
  · simp only [if_neg hin] at hop ⊢
    exact hsp c hc hop

theorem not_mem_run_of_spent (x : Outpoint) :
    ∀ (cs : List (List Outpoint → List Outpoint)) (st : WalletSt),
      (∀ c ∈ cs, Subselector c) →
      (∀ cr ∈ st.credits, cr.op = x → cr.spent = true) →
      ∀ t ∈ runProducers cs st, x ∉ t := by
  intro cs
  induction cs with
  | nil => intro st _ _ t ht; simp [runProducers] at ht
  | cons c rest ih =>
    intro st hsub hsp t ht
    simp only [runProducers, List.mem_cons] at ht
    rcases ht with rfl | ht
    · intro hx
      have hmem : x ∈ fillCoins st := hsub c (List.mem_cons_self _ _) _ _ hx
      obtain ⟨cr, hcr, hop, hspf⟩ := mem_fillCoins_unspent st x hmem
      have htru := hsp cr hcr hop
      rw [hspf] at htru
      exact Bool.noConfusion htru
    · exact ih (produceTx c st).2 (fun d hd => hsub d (List.mem_cons_of_mem _ hd))
        (by simpa [produceTx] using markSpent_preserves_spent st (c (fillCoins st)) x hsp)
        t ht

/-- C6: under the serialized fund lock, any two transactions produced
    by the wallet have disjoint input outpoint sets: every producer
    selects only among credits that are neither locked nor marked
    pending-spent, and broadcasting marks the selected inputs spent
    before the lock is released, so no later producer can reselect them
    even before confirmation. -/
theorem fundLock_inputs_disjoint :
    ∀ (cs : List (List Outpoint → List Outpoint)) (st : WalletSt),
      (∀ c ∈ cs, Subselector c) →
      List.Pairwise (fun t₁ t₂ => ∀ x ∈ t₁, x ∉ t₂) (runProducers cs st) := by
  intro cs
  induction cs with
  | nil => intro st _; simp [runProducers]
  | cons c rest ih =>
    intro st hsub
    simp only [runProducers]
    constructor
    · intro t ht x hx
      have hmark : ∀ cr ∈ (produceTx c st).2.credits, cr.op = x → cr.spent = true := by
        simpa [produceTx] using
          markSpent_spent_of_mem st (c (fillCoins st)) x (by simpa [produceTx] using hx)
      exact not_mem_run_of_spent x rest (produceTx c st).2
        (fun d hd => hsub d (List.mem_cons_of_mem _ hd)) hmark t ht
    · exact ih (produceTx c st).2 (fun d hd => hsub d (List.mem_cons_of_mem _ hd))

/-- Witness for fundLock_inputs_disjoint: two serialized producers over
    a wallet with two credits; the selectors take every offered coin. -/
theorem fundLock_inputs_disjoint_witness :
    List.Pairwise (fun t₁ t₂ => ∀ x ∈ t₁, x ∉ t₂) (runProducers exSelectors exFundSt) :=
  fundLock_inputs_disjoint exSelectors exFundSt (by
    intro c hc
    simp only [exSelectors, List.mem_cons, List.not_mem_nil, or_false] at hc
    rcases hc with rfl | rfl
    · intro l x hx; exact hx
    · intro l x hx; exact hx)

end WalletFund

namespace PluginBid

/-- C3: a bid whose idempotency key hits the sendBidResults cache is
    answered from the cached completed result (tagged fromCache) and is
    excluded from the set passed to createBatchBid; cache entries for
    fresh bids are installed only after sendMTX succeeds (a failed
    build or broadcast leaves the cache untouched); and replaying a key
    returns the same (tx_hash, output_index) while the second call never
    invokes the builder -- its outcome is the same for every builder. -/
theorem batchBid_idempotency
    (build rebuild : List BidReq → Except Unit BuiltTx)
    (b : BidReq) (cache : BidCache) (tx : BuiltTx) (pb : ProcessedBid)
    (hmiss : JsMap.getA cache b.idempotencyKey = none)
    (hbuild : build [b] = Except.ok tx)
    (hpost : postProcessBatchBids tx.txHash tx.outputs = [pb])
    (hkey : pb.idempotency_key = b.idempotencyKey) :
    (handleBatchBid build [b] cache).1 = Except.ok [pb] ∧
    JsMap.getA (handleBatchBid build [b] cache).2 b.idempotencyKey =
      some { pb with fromCache := true } ∧
    handleBatchBid rebuild [b] (handleBatchBid build [b] cache).2 =
      (Except.ok [{ pb with fromCache := true }], (handleBatchBid build [b] cache).2) ∧
    (∀ (bids : List BidReq) (c : BidCache),
       (cacheSplit c bids).2 =
         bids.filter (fun x => (JsMap.getA c x.idempotencyKey).isNone)) ∧
    (∀ (f : List BidReq → Except Unit BuiltTx) (bids : List BidReq) (c : BidCache) (e : Unit),
       (cacheSplit c bids).2 ≠ [] → f (cacheSplit c bids).2 = Except.error e →
       handleBatchBid f bids c = (Except.error e, c)) := by
  have hsplit : cacheSplit cache [b] = ([], [b]) := by
    simp [cacheSplit, hmiss]
  have hmain : handleBatchBid build [b] cache =
      (Except.ok [pb], JsMap.setA cache b.idempotencyKey { pb with fromCache := true }) := by
    unfold handleBatchBid
    rw [hsplit]
    simp [hbuild, hpost, installCache, hkey]
  have hcache : JsMap.getA (JsMap.setA cache b.idempotencyKey { pb with fromCache := true })
      b.idempotencyKey = some { pb with fromCache := true } :=
    JsMap.getA_setA_self cache b.idempotencyKey { pb with fromCache := true }
  refine ⟨by rw [hmain], ?_, ?_, ?_, ?_⟩
  · rw [hmain]
    exact hcache
  · rw [hmain]
    have hsplit2 : cacheSplit
        (JsMap.setA cache b.idempotencyKey { pb with fromCache := true }) [b] =
        ([{ pb with fromCache := true }], []) := by
      simp [cacheSplit, hcache]
    unfold handleBatchBid
    rw [hsplit2]
    simp
  · intro bids c
    induction bids with
    | nil => simp [cacheSplit]
    | cons x rest ihx =>
      cases hg : JsMap.getA c x.idempotencyKey with
      | none => simp [cacheSplit, hg, ihx, List.filter_cons]
      | some r => simp [cacheSplit, hg, ihx, List.filter_cons]
  · intro f bids c e hne herr
    unfold handleBatchBid
    rw [if_neg hne, herr]

/-- Witness for batchBid_idempotency: bid k1 against the empty cache; a
    first call broadcasting exTx installs the entry, and the replay is
    answered from the cache with the same tx hash and output index. -/
theorem batchBid_idempotency_witness :
    (handleBatchBid exBuild [exBid] []).1 = Except.ok [exPb] ∧
    JsMap.getA (handleBatchBid exBuild [exBid] []).2 exBid.idempotencyKey =
      some { exPb with fromCache := true } ∧
    handleBatchBid exBuild [exBid] (handleBatchBid exBuild [exBid] []).2 =
      (Except.ok [{ exPb with fromCache := true }], (handleBatchBid exBuild [exBid] []).2) :=
  ⟨(batchBid_idempotency exBuild exBuild exBid [] exTx exPb rfl rfl rfl rfl).1,
   (batchBid_idempotency exBuild exBuild exBid [] exTx exPb rfl rfl rfl rfl).2.1,
   (batchBid_idempotency exBuild exBuild exBid [] exTx exPb rfl rfl rfl rfl).2.2.1⟩

end PluginBid

namespace WalletHttp

/-- Witness for makeBatchOpen_legal: batch-opening alice, dup and
    reserved at exOpenEnv accepts alice (it satisfies the legality
    condition, so an OPEN output exists) while dup and reserved land in
    the per-name error list. -/
theorem makeBatchOpen_legal_witness :
    (∃ out, processBatchOpenName exOpenEnv "alice" = Except.ok out) ∧
    (makeBatchOpen exOpenEnv ["alice", "dup", "reserved"]).1 =
      ["alice", "dup", "reserved"].filterMap
        (fun n => (processBatchOpenName exOpenEnv n).toOption) ∧
    (makeBatchOpen exOpenEnv ["alice", "dup", "reserved"]).2 =
      ["alice", "dup", "reserved"].filter (fun n => !openLegal exOpenEnv n) :=
  ⟨((makeBatchOpen_legal exOpenEnv ["alice", "dup", "reserved"]).1 "alice").mpr (by decide),
   (makeBatchOpen_legal exOpenEnv ["alice", "dup", "reserved"]).2.2.1,
   (makeBatchOpen_legal exOpenEnv ["alice", "dup", "reserved"]).2.2.2⟩

end WalletHttp
